import Mathlib

/-!
Shallow embedding of the mock embedded-io crate (src/lib.rs).

Bytes are modelled as `Nat`; the caller buffer of `read` is modelled by its
contents (a `List Nat`), and `read` returns the updated buffer contents.
A call on an exhausted queue panics in the source (`expect`), modelled here
as `none`; a normal return is `some`.  `VecDeque` is a `List` with
`push_back` appending at the tail and `pop_front`/`push_front` acting on
the head.
-/

/-- Error type for the crate: wraps an `embedded_io::ErrorKind`, an
external category code modelled as a plain `Nat`. -/
structure MockError where
  kind : Nat
deriving DecidableEq, Repr

/-- A value to be yielded by the `Source` (`ReadItem` in lib.rs). -/
inductive ReadItem where
  | Data (data : List Nat)
  | Error (e : MockError)
  | Closed
deriving DecidableEq, Repr

/-- A value to be yielded by the `Sink` (`WriteItem` in lib.rs). -/
inductive WriteItem where
  | AcceptData (n : Nat)
  | Error (e : MockError)
  | Closed
deriving DecidableEq, Repr

/-- A mock which can act as a data source: a queue of items to return to
the caller. -/
structure Source where
  queue : List ReadItem
deriving DecidableEq, Repr

/-- A mock which can act as a data sink: a queue of items to return to the
caller, plus the data that has been received from the writer. -/
structure Sink where
  queue : List WriteItem
  data : List Nat
deriving DecidableEq, Repr

/-- `Source::new`: create a new empty Source. -/
def Source.new : Source := ⟨[]⟩

/-- `Source::data`: append a `Data` item at the tail of the queue. -/
def Source.data (s : Source) (d : List Nat) : Source :=
  ⟨s.queue ++ [ReadItem.Data d]⟩

/-- `Source::error`: append an `Error` item at the tail of the queue. -/
def Source.error (s : Source) (e : MockError) : Source :=
  ⟨s.queue ++ [ReadItem.Error e]⟩

/-- `Source::closed`: append a `Closed` item at the tail of the queue. -/
def Source.closed (s : Source) : Source :=
  ⟨s.queue ++ [ReadItem.Closed]⟩

/-- `Source::is_consumed`: true iff the queue is empty. -/
def Source.is_consumed (s : Source) : Bool :=
  s.queue.isEmpty

/-- `Sink::new`: create a new empty Sink. -/
def Sink.new : Sink := ⟨[], []⟩

/-- `Sink::accept_data`: append an `AcceptData` item at the tail. -/
def Sink.accept_data (s : Sink) (n : Nat) : Sink :=
  ⟨s.queue ++ [WriteItem.AcceptData n], s.data⟩

/-- `Sink::error`: append an `Error` item at the tail. -/
def Sink.error (s : Sink) (e : MockError) : Sink :=
  ⟨s.queue ++ [WriteItem.Error e], s.data⟩

/-- `Sink::closed`: append a `Closed` item at the tail. -/
def Sink.closed (s : Sink) : Sink :=
  ⟨s.queue ++ [WriteItem.Closed], s.data⟩

/-- `Sink::is_consumed`: true iff the queue is empty. -/
def Sink.is_consumed (s : Sink) : Bool :=
  s.queue.isEmpty

/-- `Sink::into_inner_data`: extract the received data log. -/
def Sink.into_inner_data (s : Sink) : List Nat :=
  s.data

/-- `embedded_io::Read for Source::read` (lib.rs lines 342-366).
Pops the head item; on `Data` it copies `n = min (buf.len) (data.len)`
bytes into the front of the buffer, pushing any unsent remainder back at
the front of the queue; on an empty queue the source panics (`none`).
Returns the result, the updated buffer contents and the updated source. -/
def Source.read (s : Source) (buf : List Nat) :
    Option (Except MockError Nat × List Nat × Source) :=
  match s.queue with
  | [] => none
  | next_item :: restq =>
    match next_item with
    | ReadItem.Data d =>
      let n := min buf.length d.length
      let to_send := d.take n
      let to_pend := d.drop n
      let q := if to_pend.length > 0 then ReadItem.Data to_pend :: restq else restq
      some (Except.ok n, to_send ++ buf.drop n, ⟨q⟩)
    | ReadItem.Error e => some (Except.error e, buf, ⟨restq⟩)
    | ReadItem.Closed => some (Except.ok 0, buf, ⟨restq⟩)

/-- `embedded_io::Write for Sink::write` (lib.rs lines 374-397).
Pops the head item; on `AcceptData maxsize` it accepts
`n = min (buf.len) maxsize` bytes, pushing `AcceptData (maxsize - n)` back
at the front when positive, and appends the ENTIRE buffer to the received
data; on an empty queue the sink panics (`none`). -/
def Sink.write (s : Sink) (buf : List Nat) :
    Option (Except MockError Nat × Sink) :=
  match s.queue with
  | [] => none
  | next_chunk :: restq =>
    match next_chunk with
    | WriteItem.AcceptData maxsize =>
      let n := min buf.length maxsize
      let remaining := maxsize - n
      let q := if remaining > 0 then WriteItem.AcceptData remaining :: restq else restq
      some (Except.ok n, ⟨q, s.data ++ buf⟩)
    | WriteItem.Error e => some (Except.error e, ⟨restq, s.data⟩)
    | WriteItem.Closed => some (Except.ok 0, ⟨restq, s.data⟩)

/-- `Sink::flush`: always succeeds, touching nothing. -/
def Sink.flush (s : Sink) : Except MockError Unit × Sink :=
  (Except.ok (), s)

/-- `embedded_io_async::Read for Source::read` (lib.rs lines 368-372): the
async entry point just calls the blocking `read`; the future is modelled
as an `Id` computation, which resolves immediately. -/
def Source.read_async (s : Source) (buf : List Nat) :
    Id (Option (Except MockError Nat × List Nat × Source)) :=
  pure (Source.read s buf)

/-- `embedded_io_async::Write for Sink::write` (lib.rs lines 404-408): the
async entry point just calls the blocking `write`, as an `Id` computation. -/
def Sink.write_async (s : Sink) (buf : List Nat) :
    Id (Option (Except MockError Nat × Sink)) :=
  pure (Sink.write s buf)

/-- Runs a sequence of `read` calls with fresh zeroed buffers of the given
sizes, collecting the concatenation of the byte prefixes each call
returned.  `none` if any call panics or returns an error. -/
def Source.read_run (s : Source) (sizes : List Nat) :
    Option (List Nat × Source) :=
  match sizes with
  | [] => some ([], s)
  | sz :: rest =>
    match s.read (List.replicate sz 0) with
    | none => none
    | some (Except.error _, _, _) => none
    | some (Except.ok n, b, s1) =>
      match s1.read_run rest with
      | none => none
      | some (out, s2) => some (b.take n ++ out, s2)

/-- Runs a sequence of `write` calls with the given buffers, keeping only
the final sink state; `none` if any call panics. -/
def Sink.write_run (s : Sink) (bufs : List (List Nat)) : Option Sink :=
  match bufs with
  | [] => some s
  | b :: rest =>
    match s.write b with
    | none => none
    | some (_, s1) => s1.write_run rest

/-- True iff every item of a read queue is a `Data` item. -/
def ReadItem.isData : ReadItem → Bool
  | ReadItem.Data _ => true
  | _ => false

/-- Concatenation of all `Data` payloads of a read queue, in order. -/
def totalData : List ReadItem → List Nat
  | [] => []
  | ReadItem.Data d :: rest => d ++ totalData rest
  | _ :: rest => totalData rest

/-- The bytes the received log gains over a sequence of write calls: the
concatenation, in call order, of exactly those caller buffers whose call
consumes an `AcceptData` head outcome (tracking how the queue evolves);
buffers of calls consuming `Error` or `Closed` contribute nothing.  This
is the spec-side description the amended claim C3 is compared against. -/
def loggedBytes : List WriteItem → List (List Nat) → List Nat
  | _, [] => []
  | [], _ :: _ => []
  | WriteItem.AcceptData m :: restq, b :: bs =>
    b ++ loggedBytes
      (if m - min b.length m > 0
        then WriteItem.AcceptData (m - min b.length m) :: restq else restq) bs
  | WriteItem.Error _ :: restq, _ :: bs => loggedBytes restq bs
  | WriteItem.Closed :: restq, _ :: bs => loggedBytes restq bs

/-- Claim C1: reading against a head `Data bytes` item pops it, returns
`Ok n` with `n = min (buf.length) (bytes.length)`, overwrites the first
`n` positions of the buffer with the first `n` bytes of `bytes`, and
re-inserts `Data (bytes.drop n)` at the front of the queue exactly when
`n < bytes.length`, leaving the remaining outcomes in place behind it; a
single call thus never returns bytes from two distinct queued outcomes. -/
theorem read_data_head (bytes : List Nat) (restq : List ReadItem)
    (buf : List Nat) :
    Source.read ⟨ReadItem.Data bytes :: restq⟩ buf =
      some (Except.ok (min buf.length bytes.length),
        bytes.take (min buf.length bytes.length)
          ++ buf.drop (min buf.length bytes.length),
        ⟨if min buf.length bytes.length < bytes.length
          then ReadItem.Data (bytes.drop (min buf.length bytes.length)) :: restq
          else restq⟩) := by
  have hiff : 0 < bytes.length - min buf.length bytes.length ↔
      min buf.length bytes.length < bytes.length := by omega
  simp only [Source.read, List.length_drop, gt_iff_lt, hiff]

/-- Claim C2: writing against a head `AcceptData m` item pops it, returns
`Ok accepted` with `accepted = min (buf.length) m`, re-inserts
`AcceptData (m - accepted)` at the front exactly when `accepted < m`, and
appends the ENTIRE caller buffer to the received log. -/
theorem write_accept_head (m : Nat) (restq : List WriteItem)
    (d buf : List Nat) :
    Sink.write ⟨WriteItem.AcceptData m :: restq, d⟩ buf =
      some (Except.ok (min buf.length m),
        ⟨if min buf.length m < m
           then WriteItem.AcceptData (m - min buf.length m) :: restq
           else restq,
         d ++ buf⟩) := by
  have hiff : 0 < m - min buf.length m ↔ min buf.length m < m := by omega
  simp only [Sink.write, gt_iff_lt, hiff]

/-- Claim C5: a `read` on a `Source` (resp. a `write` on a `Sink`) panics,
modelled by `none`, exactly when the queue is empty; with a non-empty
queue the call always returns a result. -/
theorem exhaustion_panics :
    (∀ (s : Source) (buf : List Nat), s.read buf = none ↔ s.queue = []) ∧
    (∀ (s : Sink) (buf : List Nat), s.write buf = none ↔ s.queue = []) := by
  constructor
  · intro s buf
    obtain ⟨q⟩ := s
    cases q with
    | nil => simp [Source.read]
    | cons item restq => cases item <;> simp [Source.read]
  · intro s buf
    obtain ⟨q, d⟩ := s
    cases q with
    | nil => simp [Sink.write]
    | cons item restq => cases item <;> simp [Sink.write]

/-- Claim C6: a head `Error e` outcome is surfaced verbatim as `Err e`,
removed from the queue (the successor state starts with the following
outcome), and for a `Sink` the received log is unchanged. -/
theorem error_head_consumed :
    (∀ (e : MockError) (restq : List ReadItem) (buf : List Nat),
      Source.read ⟨ReadItem.Error e :: restq⟩ buf =
        some (Except.error e, buf, ⟨restq⟩)) ∧
    (∀ (e : MockError) (restq : List WriteItem) (d buf : List Nat),
      Sink.write ⟨WriteItem.Error e :: restq, d⟩ buf =
        some (Except.error e, ⟨restq, d⟩)) :=
  ⟨fun _ _ _ => rfl, fun _ _ _ _ => rfl⟩

/-- Claim C8: the suspend-capable entry points delegate to the blocking
algorithm and resolve immediately with the identical result and successor
state. -/
theorem async_eq_blocking :
    (∀ (s : Source) (buf : List Nat),
      Id.run (s.read_async buf) = s.read buf) ∧
    (∀ (s : Sink) (buf : List Nat),
      Id.run (s.write_async buf) = s.write buf) :=
  ⟨fun _ _ => rfl, fun _ _ => rfl⟩

/-- Claim C9: a zero-length read buffer against a non-empty head
`Data` item yields `Ok 0` and leaves the queue exactly unchanged; a
zero-length write buffer against a head `AcceptData` item with positive
limit yields `Ok 0` and leaves both the queue and the received log
unchanged. -/
theorem zero_length_buffer_noop :
    (∀ (b : Nat) (bs : List Nat) (restq : List ReadItem),
      Source.read ⟨ReadItem.Data (b :: bs) :: restq⟩ [] =
        some (Except.ok 0, [], ⟨ReadItem.Data (b :: bs) :: restq⟩)) ∧
    (∀ (m : Nat) (restq : List WriteItem) (d : List Nat),
      Sink.write ⟨WriteItem.AcceptData (m + 1) :: restq, d⟩ [] =
        some (Except.ok 0, ⟨WriteItem.AcceptData (m + 1) :: restq, d⟩)) := by
  constructor
  · intro b bs restq
    simp [Source.read]
  · intro m restq d
    simp [Sink.write]

/-- Claim C10: writing any buffer against a head `AcceptData 0` item
returns `Ok 0`, removes the outcome wholly from the queue (it is never
re-inserted), and still appends the entire caller buffer to the log. -/
theorem accept_zero_consumed :
    ∀ (restq : List WriteItem) (d buf : List Nat),
      Sink.write ⟨WriteItem.AcceptData 0 :: restq, d⟩ buf =
        some (Except.ok 0, ⟨restq, d ++ buf⟩) := by
  intro restq d buf
  simp [Sink.write]

/-- Claim C7: `is_consumed` is true exactly when the queue is empty; every
successful `read`/`write` call leaves the queue no longer than before (the
head is removed or replaced by one remainder item); and a consumed engine
admits no further `read`/`write` transition (the call panics), so
`is_consumed` can never revert from true to false. -/
theorem consumed_terminal :
    (∀ s : Source, s.is_consumed = true ↔ s.queue = []) ∧
    (∀ s : Sink, s.is_consumed = true ↔ s.queue = []) ∧
    (∀ (s : Source) (buf : List Nat) r b s1,
      s.read buf = some (r, b, s1) → s1.queue.length ≤ s.queue.length) ∧
    (∀ (s : Sink) (buf : List Nat) r s1,
      s.write buf = some (r, s1) → s1.queue.length ≤ s.queue.length) ∧
    (∀ (s : Source) (buf : List Nat), s.is_consumed = true →
      s.read buf = none) ∧
    (∀ (s : Sink) (buf : List Nat), s.is_consumed = true →
      s.write buf = none) := by
  refine ⟨?_, ?_, ?_, ?_, ?_, ?_⟩
  · intro s; simp [Source.is_consumed, List.isEmpty_iff]
  · intro s; simp [Sink.is_consumed, List.isEmpty_iff]
  · intro s buf r b s1 h
    obtain ⟨q⟩ := s
    cases q with
    | nil => simp [Source.read] at h
    | cons item restq =>
      cases item with
      | Data d =>
        simp only [Source.read, Option.some.injEq, Prod.mk.injEq] at h
        obtain ⟨-, -, h3⟩ := h
        subst h3
        split <;> simp
      | Error e =>
        simp only [Source.read, Option.some.injEq, Prod.mk.injEq] at h
        obtain ⟨-, -, h3⟩ := h
        subst h3
        simp [Nat.le_succ]
      | Closed =>
        simp only [Source.read, Option.some.injEq, Prod.mk.injEq] at h
        obtain ⟨-, -, h3⟩ := h
        subst h3
        simp [Nat.le_succ]
  · intro s buf r s1 h
    obtain ⟨q, d⟩ := s
    cases q with
    | nil => simp [Sink.write] at h
    | cons item restq =>
      cases item with
      | AcceptData m =>
        simp only [Sink.write, Option.some.injEq, Prod.mk.injEq] at h
        obtain ⟨-, h2⟩ := h
        subst h2
        split <;> simp
      | Error e =>
        simp only [Sink.write, Option.some.injEq, Prod.mk.injEq] at h
        obtain ⟨-, h2⟩ := h
        subst h2
        simp [Nat.le_succ]
      | Closed =>
        simp only [Sink.write, Option.some.injEq, Prod.mk.injEq] at h
        obtain ⟨-, h2⟩ := h
        subst h2
        simp [Nat.le_succ]
  · intro s buf h
    obtain ⟨q⟩ := s
    cases q with
    | nil => rfl
    | cons item restq => simp [Source.is_consumed] at h
  · intro s buf h
    obtain ⟨q, d⟩ := s
    cases q with
    | nil => rfl
    | cons item restq => simp [Sink.is_consumed] at h

/-- Witness for C7: a consumed source really admits no read transition. -/
theorem consumed_terminal_witness :
    Source.read ⟨[]⟩ [] = none :=
  consumed_terminal.2.2.2.2.1 ⟨[]⟩ [] rfl

/-- Counterexample to claim C3 as stated: writing `[1]` against a sink
whose only queued outcome is `Closed` consumes that outcome without
surfacing an error, yet the extracted log is `[]`, not the concatenation
`[1]` that the claim requires for a call consumed under `Closed`. -/
theorem sink_log_closed_cex :
    Sink.write ⟨[WriteItem.Closed], []⟩ [1] =
      some (Except.ok 0, ⟨[], []⟩) ∧
    Sink.into_inner_data ⟨[], []⟩ = [] ∧ ([] : List Nat) ≠ [1] :=
  ⟨rfl, rfl, by decide⟩

/-- Claim C3 (amended): over any finite sequence of write calls that does
not hit exhaustion, the sink log grows by exactly the concatenation, in
call order, of the buffers of those calls whose consumed head outcome was
`AcceptData`; calls consuming `Error` or `Closed` contribute nothing. -/
theorem sink_log_from_accept_writes :
    ∀ (bufs : List (List Nat)) (s s1 : Sink),
      s.write_run bufs = some s1 →
      s1.data = s.data ++ loggedBytes s.queue bufs := by
  intro bufs
  induction bufs with
  | nil =>
    intro s s1 h
    simp only [Sink.write_run, Option.some.injEq] at h
    subst h
    simp [loggedBytes]
  | cons b bs ih =>
    intro s s1 h
    obtain ⟨q, d⟩ := s
    cases q with
    | nil => simp [Sink.write_run, Sink.write] at h
    | cons item restq =>
      cases item with
      | AcceptData m =>
        simp only [Sink.write_run, Sink.write] at h
        have hrec := ih _ _ h
        simp only at hrec
        rw [hrec]
        simp [loggedBytes, List.append_assoc]
      | Error e =>
        simp only [Sink.write_run, Sink.write] at h
        have hrec := ih _ _ h
        simpa [loggedBytes] using hrec
      | Closed =>
        simp only [Sink.write_run, Sink.write] at h
        have hrec := ih _ _ h
        simpa [loggedBytes] using hrec

/-- Witness for the amended C3: a concrete two-call run, one accepted
write and one scripted error, logs exactly the accepted call buffer. -/
theorem sink_log_from_accept_writes_witness :
    Sink.data ⟨[], [1, 2]⟩ =
      Sink.data ⟨[WriteItem.AcceptData 2, WriteItem.Error ⟨0⟩], []⟩ ++
        loggedBytes [WriteItem.AcceptData 2, WriteItem.Error ⟨0⟩] [[1, 2], [9]] :=
  sink_log_from_accept_writes [[1, 2], [9]]
    ⟨[WriteItem.AcceptData 2, WriteItem.Error ⟨0⟩], []⟩ ⟨[], [1, 2]⟩ rfl

/-- Invariant behind claim C4: running reads against an all-`Data` queue
returns bytes that, together with the data still queued, reconstitute the
originally queued data, and keeps the queue all-`Data`. -/
theorem read_run_invariant (sizes : List Nat) :
    ∀ (s : Source) (out : List Nat) (s1 : Source),
      (∀ i ∈ s.queue, i.isData = true) →
      s.read_run sizes = some (out, s1) →
      out ++ totalData s1.queue = totalData s.queue ∧
        ∀ i ∈ s1.queue, i.isData = true := by
  induction sizes with
  | nil =>
    intro s out s1 hall h
    simp only [Source.read_run, Option.some.injEq, Prod.mk.injEq] at h
    obtain ⟨h1, h2⟩ := h
    subst h1
    subst h2
    exact ⟨by simp, hall⟩
  | cons sz rest ih =>
    intro s out s1 hall h
    obtain ⟨q⟩ := s
    cases q with
    | nil => simp [Source.read_run, Source.read] at h
    | cons item restq =>
      cases item with
      | Error e => simpa [ReadItem.isData] using hall _ (List.mem_cons_self _ _)
      | Closed => simpa [ReadItem.isData] using hall _ (List.mem_cons_self _ _)
      | Data d =>
        have htail : ∀ i ∈ restq, i.isData = true := fun i hi =>
          hall _ (List.mem_cons_of_mem _ hi)
        have hiff : (0 < d.length - min sz d.length) ↔
            (min sz d.length < d.length) := by
          omega
        simp only [Source.read_run, Source.read, List.length_replicate,
          List.length_drop, gt_iff_lt, hiff] at h
        have htake : ((d.take (min sz d.length) ++
            (List.replicate sz (0 : Nat)).drop (min sz d.length)).take
              (min sz d.length)) = d.take (min sz d.length) :=
          List.take_left' (by simp [List.length_take])
        by_cases hlt : min sz d.length < d.length
        · rw [if_pos hlt] at h
          cases hrec : Source.read_run ⟨ReadItem.Data
              (d.drop (min sz d.length)) :: restq⟩ rest with
          | none => rw [hrec] at h; exact absurd h (by simp)
          | some p =>
            obtain ⟨out2, s2⟩ := p
            rw [hrec] at h
            simp only [Option.some.injEq, Prod.mk.injEq] at h
            obtain ⟨h1, h2⟩ := h
            subst h2
            have hmid : ∀ i ∈ (ReadItem.Data (d.drop (min sz d.length)) ::
                restq), i.isData = true := by
              intro i hi
              rcases List.mem_cons.mp hi with hh | hh
              · subst hh; rfl
              · exact htail _ hh
            obtain ⟨hsum, hs2⟩ := ih _ _ _ hmid hrec
            refine ⟨?_, hs2⟩
            rw [← h1, htake]
            simp only [totalData] at hsum ⊢
            rw [List.append_assoc, hsum, ← List.append_assoc,
              List.take_append_drop]
        · rw [if_neg hlt] at h
          have hn : min sz d.length = d.length := by omega
          cases hrec : Source.read_run ⟨restq⟩ rest with
          | none => rw [hrec] at h; exact absurd h (by simp)
          | some p =>
            obtain ⟨out2, s2⟩ := p
            rw [hrec] at h
            simp only [Option.some.injEq, Prod.mk.injEq] at h
            obtain ⟨h1, h2⟩ := h
            subst h2
            obtain ⟨hsum, hs2⟩ := ih _ _ _ htail hrec
            refine ⟨?_, hs2⟩
            rw [← h1, htake, hn, List.take_length]
            simp only [totalData]
            rw [List.append_assoc, hsum]

/-- Claim C4: for a source scripted from `Data` outcomes only, any
sequence of read-buffer sizes that drains the queue returns, in
concatenation, exactly the concatenation of all the appended data,
independent of chunking. -/
theorem chunking_irrelevant (sizes : List Nat) (s : Source) (out : List Nat)
    (s1 : Source)
    (hall : ∀ i ∈ s.queue, i.isData = true)
    (hrun : s.read_run sizes = some (out, s1))
    (hdone : s1.queue = []) :
    out = totalData s.queue := by
  have h := (read_run_invariant sizes s out s1 hall hrun).1
  rw [hdone] at h
  simpa [totalData] using h

/-- Witness for C4: the source scripted with data `[1, 2]` then `[3]`,
drained by three one-byte reads, returns `[1, 2, 3]` in order. -/
theorem chunking_irrelevant_witness :
    ([1, 2, 3] : List Nat) =
      totalData [ReadItem.Data [1, 2], ReadItem.Data [3]] :=
  chunking_irrelevant [1, 1, 1] ⟨[ReadItem.Data [1, 2], ReadItem.Data [3]]⟩
    [1, 2, 3] ⟨[]⟩ (by decide) rfl rfl
